import Mathlib

/-!
Verification of the time utilities of react-nano-timepicker.

Shallow embedding of `src/utils/time.ts`: `parseTime`, `formatTime`,
`timeToMinutes`, `generateTimeRange`, `isValidTime`, `filterTimesByInput`
and `cleanTimeString`, together with proofs of the specified properties.

Strings are modelled as Lean `String` (a structure over `List Char`);
JavaScript code-point comparisons are modelled through `Char.toNat`.
-/

namespace TimeUtils

/-- The normalized time value `{hours, minutes}` of `time.ts`. -/
structure TimeValue where
  hours : Nat
  minutes : Nat
  deriving DecidableEq, Repr

/-- JavaScript `\s` (whitespace character of a regular expression),
by code point. -/
def isJsWhitespace (c : Char) : Bool :=
  c.toNat = 9 || c.toNat = 10 || c.toNat = 11 || c.toNat = 12 || c.toNat = 13 ||
  c.toNat = 32 || c.toNat = 160 || c.toNat = 5760 ||
  (8192 ≤ c.toNat && c.toNat ≤ 8202) ||
  c.toNat = 8232 || c.toNat = 8233 || c.toNat = 8239 || c.toNat = 8287 ||
  c.toNat = 12288 || c.toNat = 65279

/-- JavaScript `toLowerCase`, restricted to its action on the code points
the parser's grammar can accept (ASCII). -/
def charLower (c : Char) : Char :=
  if 65 ≤ c.toNat && c.toNat ≤ 90 then Char.ofNat (c.toNat + 32) else c

/-- The cleaning step `s.toLowerCase().replace(/\s/g, '')` on the character list. -/
def cleanChars (cs : List Char) : List Char :=
  (cs.map charLower).filter (fun c => !isJsWhitespace c)

/-- Function `cleanTimeString` from `time.ts`: lowercase and strip all whitespace. -/
def cleanTimeString (time : String) : String :=
  ⟨cleanChars time.data⟩

/-- Digit test `\d` of the regular expressions, by code point. -/
def isDig (c : Char) : Bool :=
  48 ≤ c.toNat && c.toNat ≤ 57

/-- Numeric value of a digit character. -/
def dval (c : Char) : Nat :=
  c.toNat - 48

/-- The match of `/^(\d{1,2}):(\d{2})(am|pm)$/` on the cleaned string:
on success, the captured hour value, minute value and period character
(`'a'` or `'p'`). The two branches are the one-digit-hour shape (length 6)
and the two-digit-hour shape (length 7). -/
def match12 : List Char → Option (Nat × Nat × Char)
  | [h1, c, m1, m2, p, mEnd] =>
    if isDig h1 && (c == ':') && isDig m1 && isDig m2 &&
        (p == 'a' || p == 'p') && (mEnd == 'm') then
      some (dval h1, 10 * dval m1 + dval m2, p)
    else none
  | [h1, h2, c, m1, m2, p, mEnd] =>
    if isDig h1 && isDig h2 && (c == ':') && isDig m1 && isDig m2 &&
        (p == 'a' || p == 'p') && (mEnd == 'm') then
      some (10 * dval h1 + dval h2, 10 * dval m1 + dval m2, p)
    else none
  | _ => none

/-- The match of `/^(\d{1,2}):(\d{2})$/` on the cleaned string:
on success, the captured hour and minute values. -/
def match24 : List Char → Option (Nat × Nat)
  | [h1, c, m1, m2] =>
    if isDig h1 && (c == ':') && isDig m1 && isDig m2 then
      some (dval h1, 10 * dval m1 + dval m2)
    else none
  | [h1, h2, c, m1, m2] =>
    if isDig h1 && isDig h2 && (c == ':') && isDig m1 && isDig m2 then
      some (10 * dval h1 + dval h2, 10 * dval m1 + dval m2)
    else none
  | _ => none

/-- The body of `parseTime` after the cleaning step: try the 12-hour
regular expression, then the 24-hour one.  The captured minute value is a
natural number here, so the source's `minutes < 0` test is omitted as
vacuous. -/
def parseCleaned (cleaned : List Char) : Option TimeValue :=
  match match12 cleaned with
  | some (hours, minutes, period) =>
    if hours < 1 || hours > 12 || minutes > 59 then none
    else if period == 'a' then
      some ⟨if hours == 12 then 0 else hours, minutes⟩
    else
      some ⟨if hours == 12 then 12 else hours + 12, minutes⟩
  | none =>
    match match24 cleaned with
    | some (hours, minutes) =>
      if hours > 23 || minutes > 59 then none else some ⟨hours, minutes⟩
    | none => none

/-- Function `parseTime` from `time.ts`. -/
def parseTime (timeStr : String) : Option TimeValue :=
  parseCleaned (cleanChars timeStr.data)

/-- JavaScript `String.prototype.padStart(2, '0')`. -/
def padStart2 (s : String) : String :=
  if s.length < 2 then ⟨List.replicate (2 - s.length) '0' ++ s.data⟩ else s

/-- Function `formatTime` from `time.ts`. -/
def formatTime (time : TimeValue) : String :=
  let period := if time.hours ≥ 12 then "pm" else "am"
  let displayHours :=
    if time.hours = 0 then 12
    else if time.hours > 12 then time.hours - 12
    else time.hours
  let displayMinutes := padStart2 (Nat.repr time.minutes)
  Nat.repr displayHours ++ ":" ++ displayMinutes ++ period

/-- Function `timeToMinutes` from `time.ts`. -/
def timeToMinutes (time : TimeValue) : Nat :=
  time.hours * 60 + time.minutes

/-- The `while (currentMinutes <= endMinutes)` loop of `generateTimeRange`.
The positivity of the step is carried so the loop provably terminates,
exactly as the source's loop does for a positive interval. -/
def rangeLoop (endMinutes step : Nat) (hstep : 0 < step) (currentMinutes : Nat) :
    List String :=
  if _h : currentMinutes ≤ endMinutes then
    formatTime ⟨currentMinutes / 60, currentMinutes % 60⟩ ::
      rangeLoop endMinutes step hstep (currentMinutes + step)
  else []
  termination_by endMinutes + 1 - currentMinutes
  decreasing_by omega

/-- Function `generateTimeRange` from `time.ts`.  The interval is an integer, as in
the source, where it may be zero or negative. -/
def generateTimeRange (startTime endTime : String) (intervalMinutes : Int) :
    List String :=
  match parseTime startTime, parseTime endTime with
  | some start, some «end» =>
    let startMinutes := timeToMinutes start
    let endMinutes := timeToMinutes «end»
    if h : startMinutes > endMinutes ∨ intervalMinutes ≤ 0 then []
    else rangeLoop endMinutes intervalMinutes.toNat (by omega) startMinutes
  | _, _ => []

/-- Function `isValidTime` from `time.ts`. -/
def isValidTime (timeStr : String) : Bool :=
  (parseTime timeStr).isSome

/-- Test that `pat` is a prefix of `s`, written out on character lists. -/
def prefMatch : List Char → List Char → Bool
  | [], _ => true
  | _ :: _, [] => false
  | a :: pat, b :: s => a == b && prefMatch pat s

/-- JavaScript `String.prototype.includes`: `pat` occurs as a contiguous
substring of `s`. -/
def subMatch (pat : List Char) : List Char → Bool
  | [] => prefMatch pat []
  | b :: s => prefMatch pat (b :: s) || subMatch pat s

/-- Function `filterTimesByInput` from `time.ts`. -/
def filterTimesByInput (times : List String) (input : String) : List String :=
  let cleaned := cleanChars input.data
  if cleaned.isEmpty then times
  else times.filter (fun time => subMatch cleaned (cleanChars time.data))

/-! Section: Character-level lemmas -/

theorem toNat_charOfNat {n : Nat} (h : n < 55296) : (Char.ofNat n).toNat = n := by
  have hv : n.isValidChar := Or.inl h
  rw [Char.ofNat, dif_pos hv]
  rfl

theorem toNat_charLower (c : Char) :
    (charLower c).toNat =
      if 65 ≤ c.toNat ∧ c.toNat ≤ 90 then c.toNat + 32 else c.toNat := by
  unfold charLower
  by_cases h : 65 ≤ c.toNat ∧ c.toNat ≤ 90
  · rw [if_pos (by simpa using h), if_pos h, toNat_charOfNat (by omega)]
  · rw [if_neg (by simpa using h), if_neg h]

theorem charLower_eq_self {c : Char} (h : ¬(65 ≤ c.toNat ∧ c.toNat ≤ 90)) :
    charLower c = c := by
  show (if 65 ≤ c.toNat && c.toNat ≤ 90 then Char.ofNat (c.toNat + 32) else c) = c
  rw [if_neg]
  simp only [Bool.and_eq_true, decide_eq_true_eq, not_and]
  omega

theorem charLower_idem (c : Char) : charLower (charLower c) = charLower c := by
  have h1 := toNat_charLower c
  by_cases h : 65 ≤ c.toNat ∧ c.toNat ≤ 90
  · rw [if_pos h] at h1
    exact charLower_eq_self (by omega)
  · rw [if_neg h] at h1
    exact charLower_eq_self (by omega)

theorem isJsWs_eq_false {c : Char} (h1 : 33 ≤ c.toNat) (h2 : c.toNat ≤ 159) :
    isJsWhitespace c = false := by
  unfold isJsWhitespace
  simp only [Bool.or_eq_false_iff, Bool.and_eq_false_iff, decide_eq_false_iff_not]
  omega

theorem isJsWhitespace_charLower (c : Char) :
    isJsWhitespace (charLower c) = isJsWhitespace c := by
  have h1 := toNat_charLower c
  by_cases h : 65 ≤ c.toNat ∧ c.toNat ≤ 90
  · rw [if_pos h] at h1
    rw [isJsWs_eq_false (c := charLower c) (by omega) (by omega),
      isJsWs_eq_false (by omega) (by omega)]
  · rw [charLower_eq_self h]

theorem cleanChars_cons (c : Char) (l : List Char) :
    cleanChars (c :: l) =
      if isJsWhitespace (charLower c) then cleanChars l
      else charLower c :: cleanChars l := by
  unfold cleanChars
  by_cases h : isJsWhitespace (charLower c) <;>
    simp [h, List.filter_cons]

theorem cleanChars_idem (l : List Char) : cleanChars (cleanChars l) = cleanChars l := by
  induction l with
  | nil => rfl
  | cons c l ih =>
    by_cases h : isJsWhitespace (charLower c)
    · rw [cleanChars_cons, if_pos h, ih]
    · rw [cleanChars_cons, if_neg h, cleanChars_cons, charLower_idem, if_neg h, ih]

/-! Section: The generation loop in closed form -/

theorem rangeLoop_unfold (endM step : Nat) (h : 0 < step) (cur : Nat) :
    rangeLoop endM step h cur =
      if cur ≤ endM then
        formatTime ⟨cur / 60, cur % 60⟩ :: rangeLoop endM step h (cur + step)
      else [] := by
  rw [rangeLoop]
  by_cases hc : cur ≤ endM
  · rw [dif_pos hc, if_pos hc]
  · rw [dif_neg hc, if_neg hc]

theorem rangeLoop_closed (endM step : Nat) (h : 0 < step) (cur : Nat)
    (hc : cur ≤ endM) :
    rangeLoop endM step h cur =
      (List.range ((endM - cur) / step + 1)).map
        (fun i => formatTime ⟨(cur + step * i) / 60, (cur + step * i) % 60⟩) := by
  generalize hn : endM - cur = n
  induction n using Nat.strong_induction_on generalizing cur with
  | _ n ih =>
    rw [rangeLoop_unfold, if_pos hc]
    by_cases h2 : cur + step ≤ endM
    · rw [ih (endM - (cur + step)) (by omega) (cur + step) h2 rfl]
      have hdiv : (endM - cur) / step + 1 = ((endM - (cur + step)) / step + 1) + 1 := by
        have heq : endM - cur = (endM - (cur + step)) + step := by omega
        rw [heq, Nat.add_div_right _ h]
      rw [hn] at hdiv
      conv_rhs => rw [hdiv, List.range_succ_eq_map, List.map_cons, List.map_map]
      refine congrArg₂ List.cons (by simp) ?_
      refine List.map_congr_left fun i _ => ?_
      simp only [Function.comp_apply, Nat.succ_eq_add_one]
      have hst : cur + step + step * i = cur + step * (i + 1) := by ring
      rw [hst]
    · rw [rangeLoop_unfold, if_neg h2]
      have hd : (endM - cur) / step = 0 := Nat.div_eq_of_lt (by omega)
      rw [hn] at hd
      rw [hd]
      simp [List.range_succ]

theorem generateTimeRange_closed (s e : String) (iv : Int) (ts te : TimeValue)
    (hs : parseTime s = some ts) (he : parseTime e = some te)
    (hle : timeToMinutes ts ≤ timeToMinutes te) (hiv : 0 < iv) :
    generateTimeRange s e iv =
      (List.range ((timeToMinutes te - timeToMinutes ts) / iv.toNat + 1)).map
        (fun i => formatTime ⟨(timeToMinutes ts + iv.toNat * i) / 60,
                              (timeToMinutes ts + iv.toNat * i) % 60⟩) := by
  unfold generateTimeRange
  simp only [hs, he]
  rw [dif_neg (by omega)]
  exact rangeLoop_closed _ _ _ _ hle

/-! Section: Bounds of parsed values and the round trip -/

theorem parseCleaned_bounds {cs : List Char} {v : TimeValue}
    (h : parseCleaned cs = some v) : v.hours < 24 ∧ v.minutes < 60 := by
  unfold parseCleaned at h
  cases h12 : match12 cs with
  | some t =>
    obtain ⟨hours, minutes, period⟩ := t
    rw [h12] at h
    simp only at h
    by_cases hb : (hours < 1 || hours > 12 || minutes > 59 : Bool)
    · rw [if_pos hb] at h; cases h
    · rw [if_neg hb] at h
      simp only [Bool.or_eq_true, decide_eq_true_eq, not_or, not_lt] at hb
      by_cases hp : (period == 'a' : Bool)
      · rw [if_pos hp] at h
        cases h
        refine ⟨?_, show minutes < 60 by omega⟩
        show (if hours == 12 then 0 else hours) < 24
        split <;> omega
      · rw [if_neg hp] at h
        cases h
        refine ⟨?_, show minutes < 60 by omega⟩
        show (if hours == 12 then 12 else hours + 12) < 24
        split
        · omega
        · next hne =>
          have hne12 : hours ≠ 12 := by simpa using hne
          omega
  | none =>
    rw [h12] at h
    simp only at h
    cases h24 : match24 cs with
    | some t =>
      obtain ⟨hours, minutes⟩ := t
      rw [h24] at h
      simp only at h
      by_cases hb : (hours > 23 || minutes > 59 : Bool)
      · rw [if_pos hb] at h; cases h
      · rw [if_neg hb] at h
        simp only [Bool.or_eq_true, decide_eq_true_eq, not_or, not_lt] at hb
        cases h
        exact ⟨show hours < 24 by omega, show minutes < 60 by omega⟩
    | none =>
      rw [h24] at h
      cases h

theorem parseTime_bounds {s : String} {v : TimeValue}
    (h : parseTime s = some v) : v.hours < 24 ∧ v.minutes < 60 :=
  parseCleaned_bounds h

set_option maxHeartbeats 4000000 in
theorem roundTrip_aux : ∀ h < 24, ∀ m < 60,
    parseTime (formatTime ⟨h, m⟩) = some ⟨h, m⟩ := by decide

/-- Spec-side measure: the minute-of-day denoted by a display string
(`0` for an unparseable string). -/
def minuteOfDay (time : String) : Nat :=
  match parseTime time with
  | some v => timeToMinutes v
  | none => 0

theorem minuteOfDay_formatTime {md : Nat} (h : md < 1440) :
    minuteOfDay (formatTime ⟨md / 60, md % 60⟩) = md := by
  unfold minuteOfDay
  rw [roundTrip_aux (md / 60) (by omega) (md % 60) (by omega)]
  unfold timeToMinutes
  simp only
  omega

/-! Section: Substring containment -/

theorem prefMatch_iff (pat s : List Char) :
    prefMatch pat s = true ↔ ∃ r, s = pat ++ r := by
  induction pat generalizing s with
  | nil => simp [prefMatch]
  | cons a pat ih =>
    cases s with
    | nil => simp [prefMatch]
    | cons b s =>
      simp only [prefMatch, Bool.and_eq_true, beq_iff_eq, ih, List.cons_append,
        List.cons.injEq]
      constructor
      · rintro ⟨rfl, r, rfl⟩
        exact ⟨r, rfl, rfl⟩
      · rintro ⟨r, rfl, rfl⟩
        exact ⟨rfl, r, rfl⟩

theorem subMatch_iff (pat s : List Char) :
    subMatch pat s = true ↔ ∃ l r, s = l ++ pat ++ r := by
  induction s with
  | nil =>
    simp only [subMatch, prefMatch_iff]
    constructor
    · rintro ⟨r, hr⟩
      exact ⟨[], r, by simpa using hr⟩
    · rintro ⟨l, r, hr⟩
      rw [eq_comm, List.append_eq_nil, List.append_eq_nil] at hr
      exact ⟨[], by simp [hr.1.2, hr.2]⟩
  | cons b s ih =>
    simp only [subMatch, Bool.or_eq_true, prefMatch_iff, ih]
    constructor
    · rintro (⟨r, hr⟩ | ⟨l, r, hr⟩)
      · exact ⟨[], r, by simpa using hr⟩
      · exact ⟨b :: l, r, by simp [hr]⟩
    · rintro ⟨l, r, hr⟩
      cases l with
      | nil => exact Or.inl ⟨r, by simpa using hr⟩
      | cons x l =>
        simp only [List.cons_append, List.cons.injEq] at hr
        exact Or.inr ⟨l, r, hr.2⟩

/-! Section: The claims -/

/-- Claim C3: for every `TimeValue` with hour in `[0,23]` and minute in
`[0,59]`, `parseTime (formatTime v)` succeeds and returns `v`. -/
theorem parseTime_formatTime_roundTrip (v : TimeValue)
    (hh : v.hours < 24) (hm : v.minutes < 60) :
    parseTime (formatTime v) = some v :=
  roundTrip_aux v.hours hh v.minutes hm

/-- Witness for C3 at the concrete value `2:30pm` (hour 14, minute 30). -/
theorem parseTime_formatTime_roundTrip_witness :
    parseTime (formatTime ⟨14, 30⟩) = some ⟨14, 30⟩ :=
  parseTime_formatTime_roundTrip ⟨14, 30⟩ (by decide) (by decide)

/-- Spec-side description of `formatTime` (section 4.2 of the spec): period
is `am` iff hour-of-day is below 12, displayed hour is 12 at hour-of-day 0
and 12 and `hour % 12` otherwise, minute zero-padded to two digits, hour
unpadded. -/
def formatTimeSpec (hours minutes : Nat) : String :=
  let period := if hours < 12 then "am" else "pm"
  let displayHours := if hours = 0 ∨ hours = 12 then 12 else hours % 12
  let paddedMinutes := if minutes < 10 then "0" ++ Nat.repr minutes else Nat.repr minutes
  Nat.repr displayHours ++ ":" ++ paddedMinutes ++ period

set_option maxHeartbeats 4000000 in
theorem formatTime_spec_aux : ∀ h < 24, ∀ m < 60,
    formatTime ⟨h, m⟩ = formatTimeSpec h m := by decide

/-- Claim C4: on every in-range `TimeValue`, `formatTime` produces exactly
the 12-hour rendering described by the spec. -/
theorem formatTime_correct (v : TimeValue) (hh : v.hours < 24) (hm : v.minutes < 60) :
    formatTime v = formatTimeSpec v.hours v.minutes :=
  formatTime_spec_aux v.hours hh v.minutes hm

/-- Witness for C4 at hour-of-day 0, minute 5. -/
theorem formatTime_correct_witness :
    formatTime ⟨0, 5⟩ = formatTimeSpec 0 5 :=
  formatTime_correct ⟨0, 5⟩ (by decide) (by decide)

/-- Claim C10: pre-normalizing the input with `cleanTimeString` never changes
the result of `parseTime`. -/
theorem parseTime_cleanTimeString (s : String) :
    parseTime (cleanTimeString s) = parseTime s :=
  congrArg parseCleaned (cleanChars_idem s.data)

/-- Claim C6: `filterTimesByInput` returns `times` unchanged on an input that
normalizes to the empty string, and otherwise keeps, in order, exactly the
options whose normalized form contains the normalized input as a contiguous
substring anywhere. -/
theorem filterTimesByInput_spec (times : List String) (input : String) :
    (cleanTimeString input = "" → filterTimesByInput times input = times) ∧
    (filterTimesByInput times input).Sublist times ∧
    (cleanTimeString input ≠ "" →
      filterTimesByInput times input =
        times.filter (fun time => subMatch (cleanChars input.data) (cleanChars time.data))) ∧
    (∀ pat str : List Char, subMatch pat str = true ↔ ∃ l r, str = l ++ pat ++ r) ∧
    filterTimesByInput ["9:00am", "9:30am", "10:00am"] "9" = ["9:00am", "9:30am"] := by
  refine ⟨?_, ?_, ?_, subMatch_iff, by decide⟩
  · intro h
    have h' : cleanChars input.data = [] := congrArg String.data h
    simp [filterTimesByInput, h']
  · by_cases h : (cleanChars input.data).isEmpty
    · simp only [filterTimesByInput, if_pos h]
      exact List.Sublist.refl times
    · simp only [filterTimesByInput, if_neg h]
      exact List.filter_sublist times
  · intro h
    have h' : ¬(cleanChars input.data).isEmpty = true := by
      intro hx
      exact h (congrArg String.mk (by simpa using hx))
    simp only [filterTimesByInput, if_neg h']

/-- Witness for C6: the non-empty-input branch at a concrete input. -/
theorem filterTimesByInput_spec_witness :
    filterTimesByInput ["9:00am", "9:30am", "10:00am"] "9" =
      List.filter (fun time => subMatch (cleanChars "9".data) (cleanChars time.data))
        ["9:00am", "9:30am", "10:00am"] :=
  (filterTimesByInput_spec ["9:00am", "9:30am", "10:00am"] "9").2.2.1 (by decide)

/-- Claim C2: when both endpoints parse and are in order and the interval is
positive, `generateTimeRange` is exactly the sequence that starts at the
start's minute-of-day and advances by the interval, formatting each value,
stopping as soon as the value exceeds the end's minute-of-day — in closed
form, the formatted values `start + interval * i` for
`i = 0 .. (end - start) / interval`; and on `9:00am`, `10:00am`, 30 it
returns `["9:00am", "9:30am", "10:00am"]`. -/
theorem generateTimeRange_spec (s e : String) (iv : Int) (ts te : TimeValue)
    (hs : parseTime s = some ts) (he : parseTime e = some te)
    (hle : timeToMinutes ts ≤ timeToMinutes te) (hiv : 0 < iv) :
    generateTimeRange s e iv =
      (List.range ((timeToMinutes te - timeToMinutes ts) / iv.toNat + 1)).map
        (fun i => formatTime ⟨(timeToMinutes ts + iv.toNat * i) / 60,
                              (timeToMinutes ts + iv.toNat * i) % 60⟩) ∧
    generateTimeRange "9:00am" "10:00am" 30 = ["9:00am", "9:30am", "10:00am"] := by
  refine ⟨generateTimeRange_closed s e iv ts te hs he hle hiv, ?_⟩
  rw [generateTimeRange_closed "9:00am" "10:00am" 30 ⟨9, 0⟩ ⟨10, 0⟩ (by decide) (by decide)
    (by decide) (by decide)]
  decide

/-- Witness for C2 at `9:00am`, `10:00am`, interval 30. -/
theorem generateTimeRange_spec_witness :
    generateTimeRange "9:00am" "10:00am" 30 = ["9:00am", "9:30am", "10:00am"] :=
  (generateTimeRange_spec "9:00am" "10:00am" 30 ⟨9, 0⟩ ⟨10, 0⟩ (by decide) (by decide)
    (by decide) (by decide)).2

/-- Claim C9: `generateTimeRange` is a total function (it is defined without
fuel: its loop provably terminates on every input), and in the generating
case its output holds at most `(end - start) / interval + 1` elements,
matching the bound on the loop's iterations. -/
theorem generateTimeRange_length (s e : String) (iv : Int) (ts te : TimeValue)
    (hs : parseTime s = some ts) (he : parseTime e = some te)
    (hle : timeToMinutes ts ≤ timeToMinutes te) (hiv : 0 < iv) :
    (generateTimeRange s e iv).length ≤
      (timeToMinutes te - timeToMinutes ts) / iv.toNat + 1 := by
  rw [generateTimeRange_closed s e iv ts te hs he hle hiv]
  simp

/-- Witness for C9 at `9:00am`, `10:00am`, interval 30: at most 3 elements. -/
theorem generateTimeRange_length_witness :
    (generateTimeRange "9:00am" "10:00am" 30).length ≤ 3 :=
  generateTimeRange_length "9:00am" "10:00am" 30 ⟨9, 0⟩ ⟨10, 0⟩ (by decide) (by decide)
    (by decide) (by decide)

/-- Claim C5: `generateTimeRange` returns the empty list (it is a total
function, so no exception is possible) exactly when an endpoint fails to
parse, the interval is non-positive, or the start's minute-of-day exceeds
the end's; in particular on a start after the end and on interval 0. -/
theorem generateTimeRange_empty_iff (s e : String) (iv : Int) :
    (generateTimeRange s e iv = [] ↔
      parseTime s = none ∨ parseTime e = none ∨ iv ≤ 0 ∨
      ∃ ts te, parseTime s = some ts ∧ parseTime e = some te ∧
        timeToMinutes te < timeToMinutes ts) ∧
    generateTimeRange "10:00am" "9:00am" 30 = [] ∧
    generateTimeRange "9:00am" "10:00am" 0 = [] := by
  refine ⟨?_, by decide, by decide⟩
  cases hps : parseTime s with
  | none => simp [generateTimeRange, hps]
  | some ts' =>
    cases hpe : parseTime e with
    | none => simp [generateTimeRange, hpe]
    | some te' =>
      by_cases hg : timeToMinutes ts' > timeToMinutes te' ∨ iv ≤ 0
      · constructor
        · intro _
          rcases hg with hg | hg
          · exact Or.inr (Or.inr (Or.inr ⟨ts', te', rfl, rfl, hg⟩))
          · exact Or.inr (Or.inr (Or.inl hg))
        · intro _
          simp only [generateTimeRange, hps, hpe]
          rw [dif_pos hg]
      · constructor
        · intro hempty
          exfalso
          simp only [generateTimeRange, hps, hpe] at hempty
          rw [dif_neg hg] at hempty
          rw [rangeLoop_unfold, if_pos (by omega)] at hempty
          cases hempty
        · rintro (h | h | h | ⟨ts2, te2, h1, h2, h3⟩)
          · exact Option.noConfusion h
          · exact Option.noConfusion h
          · exact absurd (Or.inr h) hg
          · obtain rfl : ts' = ts2 := Option.some.inj h1
            obtain rfl : te' = te2 := Option.some.inj h2
            exact absurd (Or.inl h3) hg

/-! Section: The grammar recognized by parseTime, declaratively -/

/-- Value of a string of digit characters, most significant first. -/
def digitsVal (cs : List Char) : Nat :=
  cs.foldl (fun a c => 10 * a + dval c) 0

/-- Spec-side 12-hour-to-24-hour mapping: 12 with `am` is hour-of-day 0,
12 with `pm` is 12, hours 1-11 with `pm` add 12, hours 1-11 with `am` are
unchanged. -/
def to24 (hours : Nat) (pm : Bool) : Nat :=
  if pm then (if hours == 12 then 12 else hours + 12)
  else (if hours == 12 then 0 else hours)

/-- Spec-side 12-hour grammar (spec section 4.1, form 1): `H:MM` or
`HH:MM` immediately followed by `am` or `pm`, hour value in `[1,12]`,
minute value in `[0,59]`, denoting the `to24` image. -/
def Grammar12 (cs : List Char) (v : TimeValue) : Prop :=
  ∃ hd md p, cs = hd ++ ':' :: (md ++ [p, 'm']) ∧
    (hd.length = 1 ∨ hd.length = 2) ∧ (∀ c ∈ hd, isDig c = true) ∧
    md.length = 2 ∧ (∀ c ∈ md, isDig c = true) ∧
    (p = 'a' ∨ p = 'p') ∧
    1 ≤ digitsVal hd ∧ digitsVal hd ≤ 12 ∧ digitsVal md ≤ 59 ∧
    v = ⟨to24 (digitsVal hd) (p == 'p'), digitsVal md⟩

/-- Spec-side 24-hour grammar (spec section 4.1, form 2): `H:MM` or
`HH:MM` with no suffix, hour value in `[0,23]`, minute value in `[0,59]`,
denoted unchanged. -/
def Grammar24 (cs : List Char) (v : TimeValue) : Prop :=
  ∃ hd md, cs = hd ++ ':' :: md ∧
    (hd.length = 1 ∨ hd.length = 2) ∧ (∀ c ∈ hd, isDig c = true) ∧
    md.length = 2 ∧ (∀ c ∈ md, isDig c = true) ∧
    digitsVal hd ≤ 23 ∧ digitsVal md ≤ 59 ∧
    v = ⟨digitsVal hd, digitsVal md⟩

theorem digitsVal_one (a : Char) : digitsVal [a] = dval a := by
  simp [digitsVal]

theorem digitsVal_two (a b : Char) : digitsVal [a, b] = 10 * dval a + dval b := by
  simp [digitsVal]

theorem match12_eq_some {cs : List Char} {h m : Nat} {p : Char} :
    match12 cs = some (h, m, p) ↔
      ∃ hd md, cs = hd ++ ':' :: (md ++ [p, 'm']) ∧
        (hd.length = 1 ∨ hd.length = 2) ∧ (∀ c ∈ hd, isDig c = true) ∧
        md.length = 2 ∧ (∀ c ∈ md, isDig c = true) ∧ (p = 'a' ∨ p = 'p') ∧
        h = digitsVal hd ∧ m = digitsVal md := by
  constructor
  · intro hm
    rcases cs with _ | ⟨a, _ | ⟨b, _ | ⟨c, _ | ⟨d, _ | ⟨e, _ | ⟨f, _ | ⟨g, _ | ⟨a8, rest⟩⟩⟩⟩⟩⟩⟩⟩
    · exact Option.noConfusion hm
    · exact Option.noConfusion hm
    · exact Option.noConfusion hm
    · exact Option.noConfusion hm
    · exact Option.noConfusion hm
    · exact Option.noConfusion hm
    · -- length 6: one-digit hour
      rw [show match12 [a, b, c, d, e, f] =
          (if isDig a && (b == ':') && isDig c && isDig d &&
              (e == 'a' || e == 'p') && (f == 'm') then
            some (dval a, 10 * dval c + dval d, e)
          else none) from rfl] at hm
      by_cases hguard : (isDig a && (b == ':') && isDig c && isDig d &&
          (e == 'a' || e == 'p') && (f == 'm') : Bool)
      · rw [if_pos hguard] at hm
        obtain ⟨h1, h2, h3⟩ : dval a = h ∧ 10 * dval c + dval d = m ∧ e = p := by
          simpa using hm
        simp only [Bool.and_eq_true, Bool.or_eq_true, beq_iff_eq] at hguard
        obtain ⟨⟨⟨⟨⟨hda, hb⟩, hdc⟩, hdd⟩, hep⟩, hf⟩ := hguard
        subst h3
        subst hb
        subst hf
        refine ⟨[a], [c, d], by simp, Or.inl rfl, by simpa using hda, rfl,
          by simpa using And.intro hdc hdd, hep, ?_, ?_⟩
        · rw [digitsVal_one]; exact h1.symm
        · rw [digitsVal_two]; exact h2.symm
      · rw [if_neg hguard] at hm
        exact Option.noConfusion hm
    · -- length 7: two-digit hour
      rw [show match12 [a, b, c, d, e, f, g] =
          (if isDig a && isDig b && (c == ':') && isDig d && isDig e &&
              (f == 'a' || f == 'p') && (g == 'm') then
            some (10 * dval a + dval b, 10 * dval d + dval e, f)
          else none) from rfl] at hm
      by_cases hguard : (isDig a && isDig b && (c == ':') && isDig d && isDig e &&
          (f == 'a' || f == 'p') && (g == 'm') : Bool)
      · rw [if_pos hguard] at hm
        obtain ⟨h1, h2, h3⟩ : 10 * dval a + dval b = h ∧ 10 * dval d + dval e = m ∧ f = p := by
          simpa using hm
        simp only [Bool.and_eq_true, Bool.or_eq_true, beq_iff_eq] at hguard
        obtain ⟨⟨⟨⟨⟨⟨hda, hdb⟩, hc⟩, hdd⟩, hde⟩, hfp⟩, hg⟩ := hguard
        subst h3
        subst hc
        subst hg
        refine ⟨[a, b], [d, e], by simp, Or.inr rfl, by simpa using And.intro hda hdb, rfl,
          by simpa using And.intro hdd hde, hfp, ?_, ?_⟩
        · rw [digitsVal_two]; exact h1.symm
        · rw [digitsVal_two]; exact h2.symm
      · rw [if_neg hguard] at hm
        exact Option.noConfusion hm
    · exact Option.noConfusion hm
  · rintro ⟨hd, md, hcs, hlen, hdig, hmdlen, hmdig, hp, hh, hmm⟩
    subst hcs
    rcases md with _ | ⟨m1, _ | ⟨m2, _ | ⟨m3, md'⟩⟩⟩
    · exfalso; simp only [List.length_nil] at hmdlen; omega
    · exfalso; simp only [List.length_cons, List.length_nil] at hmdlen; omega
    · rcases hd with _ | ⟨x, _ | ⟨y, _ | ⟨z, hd'⟩⟩⟩
      · exfalso; simp only [List.length_nil] at hlen; omega
      · -- hd = [x]
        have hgx : isDig x = true := hdig x (by simp)
        have hg1 : isDig m1 = true := hmdig m1 (by simp)
        have hg2 : isDig m2 = true := hmdig m2 (by simp)
        have hgp : (p == 'a' || p == 'p') = true := by
          rcases hp with rfl | rfl <;> rfl
        have hshape : [x] ++ ':' :: ([m1, m2] ++ [p, 'm']) = [x, ':', m1, m2, p, 'm'] := by
          simp
        rw [hshape]
        rw [show match12 [x, ':', m1, m2, p, 'm'] =
            (if isDig x && (':' == ':') && isDig m1 && isDig m2 &&
                (p == 'a' || p == 'p') && ('m' == 'm') then
              some (dval x, 10 * dval m1 + dval m2, p)
            else none) from rfl]
        rw [if_pos (by simp [hgx, hg1, hg2, hgp])]
        rw [hh, hmm, digitsVal_one, digitsVal_two]
      · -- hd = [x, y]
        have hgx : isDig x = true := hdig x (by simp)
        have hgy : isDig y = true := hdig y (by simp)
        have hg1 : isDig m1 = true := hmdig m1 (by simp)
        have hg2 : isDig m2 = true := hmdig m2 (by simp)
        have hgp : (p == 'a' || p == 'p') = true := by
          rcases hp with rfl | rfl <;> rfl
        have hshape : [x, y] ++ ':' :: ([m1, m2] ++ [p, 'm']) = [x, y, ':', m1, m2, p, 'm'] := by
          simp
        rw [hshape]
        rw [show match12 [x, y, ':', m1, m2, p, 'm'] =
            (if isDig x && isDig y && (':' == ':') && isDig m1 && isDig m2 &&
                (p == 'a' || p == 'p') && ('m' == 'm') then
              some (10 * dval x + dval y, 10 * dval m1 + dval m2, p)
            else none) from rfl]
        rw [if_pos (by simp [hgx, hgy, hg1, hg2, hgp])]
        rw [hh, hmm, digitsVal_two, digitsVal_two]
      · exfalso; simp only [List.length_cons, List.length_nil] at hlen; omega
    · exfalso; simp only [List.length_cons, List.length_nil] at hmdlen; omega

theorem match24_eq_some {cs : List Char} {h m : Nat} :
    match24 cs = some (h, m) ↔
      ∃ hd md, cs = hd ++ ':' :: md ∧
        (hd.length = 1 ∨ hd.length = 2) ∧ (∀ c ∈ hd, isDig c = true) ∧
        md.length = 2 ∧ (∀ c ∈ md, isDig c = true) ∧
        h = digitsVal hd ∧ m = digitsVal md := by
  constructor
  · intro hm
    rcases cs with _ | ⟨a, _ | ⟨b, _ | ⟨c, _ | ⟨d, _ | ⟨e, _ | ⟨f, rest⟩⟩⟩⟩⟩⟩
    · exact Option.noConfusion hm
    · exact Option.noConfusion hm
    · exact Option.noConfusion hm
    · exact Option.noConfusion hm
    · -- length 4: one-digit hour
      rw [show match24 [a, b, c, d] =
          (if isDig a && (b == ':') && isDig c && isDig d then
            some (dval a, 10 * dval c + dval d)
          else none) from rfl] at hm
      by_cases hguard : (isDig a && (b == ':') && isDig c && isDig d : Bool)
      · rw [if_pos hguard] at hm
        obtain ⟨h1, h2⟩ : dval a = h ∧ 10 * dval c + dval d = m := by
          simpa using hm
        simp only [Bool.and_eq_true, beq_iff_eq] at hguard
        obtain ⟨⟨⟨hda, hb⟩, hdc⟩, hdd⟩ := hguard
        subst hb
        refine ⟨[a], [c, d], by simp, Or.inl rfl, by simpa using hda, rfl,
          by simpa using And.intro hdc hdd, ?_, ?_⟩
        · rw [digitsVal_one]; exact h1.symm
        · rw [digitsVal_two]; exact h2.symm
      · rw [if_neg hguard] at hm
        exact Option.noConfusion hm
    · -- length 5: two-digit hour
      rw [show match24 [a, b, c, d, e] =
          (if isDig a && isDig b && (c == ':') && isDig d && isDig e then
            some (10 * dval a + dval b, 10 * dval d + dval e)
          else none) from rfl] at hm
      by_cases hguard : (isDig a && isDig b && (c == ':') && isDig d && isDig e : Bool)
      · rw [if_pos hguard] at hm
        obtain ⟨h1, h2⟩ : 10 * dval a + dval b = h ∧ 10 * dval d + dval e = m := by
          simpa using hm
        simp only [Bool.and_eq_true, beq_iff_eq] at hguard
        obtain ⟨⟨⟨⟨hda, hdb⟩, hc⟩, hdd⟩, hde⟩ := hguard
        subst hc
        refine ⟨[a, b], [d, e], by simp, Or.inr rfl, by simpa using And.intro hda hdb, rfl,
          by simpa using And.intro hdd hde, ?_, ?_⟩
        · rw [digitsVal_two]; exact h1.symm
        · rw [digitsVal_two]; exact h2.symm
      · rw [if_neg hguard] at hm
        exact Option.noConfusion hm
    · exact Option.noConfusion hm
  · rintro ⟨hd, md, hcs, hlen, hdig, hmdlen, hmdig, hh, hmm⟩
    subst hcs
    rcases md with _ | ⟨m1, _ | ⟨m2, _ | ⟨m3, md'⟩⟩⟩
    · exfalso; simp only [List.length_nil] at hmdlen; omega
    · exfalso; simp only [List.length_cons, List.length_nil] at hmdlen; omega
    · rcases hd with _ | ⟨x, _ | ⟨y, _ | ⟨z, hd'⟩⟩⟩
      · exfalso; simp only [List.length_nil] at hlen; omega
      · have hgx : isDig x = true := hdig x (by simp)
        have hg1 : isDig m1 = true := hmdig m1 (by simp)
        have hg2 : isDig m2 = true := hmdig m2 (by simp)
        have hshape : [x] ++ ':' :: [m1, m2] = [x, ':', m1, m2] := by simp
        rw [hshape]
        rw [show match24 [x, ':', m1, m2] =
            (if isDig x && (':' == ':') && isDig m1 && isDig m2 then
              some (dval x, 10 * dval m1 + dval m2)
            else none) from rfl]
        rw [if_pos (by simp [hgx, hg1, hg2])]
        rw [hh, hmm, digitsVal_one, digitsVal_two]
      · have hgx : isDig x = true := hdig x (by simp)
        have hgy : isDig y = true := hdig y (by simp)
        have hg1 : isDig m1 = true := hmdig m1 (by simp)
        have hg2 : isDig m2 = true := hmdig m2 (by simp)
        have hshape : [x, y] ++ ':' :: [m1, m2] = [x, y, ':', m1, m2] := by simp
        rw [hshape]
        rw [show match24 [x, y, ':', m1, m2] =
            (if isDig x && isDig y && (':' == ':') && isDig m1 && isDig m2 then
              some (10 * dval x + dval y, 10 * dval m1 + dval m2)
            else none) from rfl]
        rw [if_pos (by simp [hgx, hgy, hg1, hg2])]
        rw [hh, hmm, digitsVal_two, digitsVal_two]
      · exfalso; simp only [List.length_cons, List.length_nil] at hlen; omega
    · exfalso; simp only [List.length_cons, List.length_nil] at hmdlen; omega

theorem parseCleaned_iff (cs : List Char) (v : TimeValue) :
    parseCleaned cs = some v ↔ Grammar12 cs v ∨ Grammar24 cs v := by
  constructor
  · intro h
    unfold parseCleaned at h
    cases h12 : match12 cs with
    | some t =>
      obtain ⟨hours, minutes, period⟩ := t
      rw [h12] at h
      simp only at h
      by_cases hb : (hours < 1 || hours > 12 || minutes > 59 : Bool)
      · rw [if_pos hb] at h; cases h
      · rw [if_neg hb] at h
        simp only [Bool.or_eq_true, decide_eq_true_eq, not_or, not_lt] at hb
        obtain ⟨hd, md, hcs, hlen, hdig, hmdlen, hmdig, hp, hh, hmm⟩ :=
          match12_eq_some.mp h12
        left
        refine ⟨hd, md, period, hcs, hlen, hdig, hmdlen, hmdig, hp,
          by omega, by omega, by omega, ?_⟩
        by_cases hper : (period == 'a' : Bool)
        · rw [if_pos hper] at h
          have ha : period = 'a' := by simpa using hper
          cases h
          rw [← hh, ← hmm, ha]
          rfl
        · rw [if_neg hper] at h
          have hpp : period = 'p' := by
            rcases hp with ha | hpp
            · exact absurd (by simp [ha]) hper
            · exact hpp
          cases h
          rw [← hh, ← hmm, hpp]
          rfl
    | none =>
      rw [h12] at h
      simp only at h
      cases h24 : match24 cs with
      | some t =>
        obtain ⟨hours, minutes⟩ := t
        rw [h24] at h
        simp only at h
        by_cases hb : (hours > 23 || minutes > 59 : Bool)
        · rw [if_pos hb] at h; cases h
        · rw [if_neg hb] at h
          simp only [Bool.or_eq_true, decide_eq_true_eq, not_or, not_lt] at hb
          obtain ⟨hd, md, hcs, hlen, hdig, hmdlen, hmdig, hh, hmm⟩ :=
            match24_eq_some.mp h24
          right
          cases h
          exact ⟨hd, md, hcs, hlen, hdig, hmdlen, hmdig, by omega, by omega,
            by rw [← hh, ← hmm]⟩
      | none =>
        rw [h24] at h
        cases h
  · intro hG
    rcases hG with ⟨hd, md, p, hcs, hlen, hdig, hmdlen, hmdig, hp, h1, h12b, h59, hv⟩ |
      ⟨hd, md, hcs, hlen, hdig, hmdlen, hmdig, h23, h59, hv⟩
    · have h12s : match12 cs = some (digitsVal hd, digitsVal md, p) :=
        match12_eq_some.mpr ⟨hd, md, hcs, hlen, hdig, hmdlen, hmdig, hp, rfl, rfl⟩
      simp only [parseCleaned, h12s]
      rw [if_neg (by simp only [Bool.or_eq_true, decide_eq_true_eq]; omega)]
      rcases hp with rfl | rfl
      · rw [if_pos (by rfl)]
        rw [hv]
        rfl
      · rw [if_neg (by decide)]
        rw [hv]
        rfl
    · have h12n : match12 cs = none := by
        cases hm : match12 cs with
        | none => rfl
        | some t =>
          obtain ⟨h', m', p'⟩ := t
          obtain ⟨hd2, md2, hcs2, hlen2, _, hmdlen2, _, _, _, _⟩ :=
            match12_eq_some.mp hm
          exfalso
          rw [hcs] at hcs2
          have hlength := congrArg List.length hcs2
          simp only [List.length_append, List.length_cons, List.length_nil] at hlength
          omega
      have h24s : match24 cs = some (digitsVal hd, digitsVal md) :=
        match24_eq_some.mpr ⟨hd, md, hcs, hlen, hdig, hmdlen, hmdig, rfl, rfl⟩
      simp only [parseCleaned, h12n, h24s]
      rw [if_neg (by simp only [Bool.or_eq_true, decide_eq_true_eq]; omega)]
      rw [hv]

/-- Claim C1: after lowercasing and whitespace-stripping (`cleanChars`),
`parseTime` succeeds with value `v` exactly when the cleaned text matches
the 12-hour grammar (`H:MM`/`HH:MM` plus `am`/`pm`, hour in `[1,12]`,
minute in `[0,59]`, mapped to hour-of-day through `to24`) or the 24-hour
grammar (`H:MM`/`HH:MM`, hour in `[0,23]`, minute in `[0,59]`), the value
being the one the matching grammar denotes.  The two grammars accept
strings of different lengths, so trying them in order is immaterial. -/
theorem parseTime_grammar (s : String) (v : TimeValue) :
    parseTime s = some v ↔
      Grammar12 (cleanChars s.data) v ∨ Grammar24 (cleanChars s.data) v :=
  parseCleaned_iff (cleanChars s.data) v

/-- Claim C8: `parseTime` is a total function into an option type: on every
input it either returns `none` — exactly when no grammar matches in
bounds — or a grammar-denoted value; in particular `25:00` and `13:00am`
give `none`. -/
theorem parseTime_error_signal :
    (∀ s : String,
      (parseTime s = none ∧
        ¬∃ v, Grammar12 (cleanChars s.data) v ∨ Grammar24 (cleanChars s.data) v) ∨
      (∃ v, parseTime s = some v ∧
        (Grammar12 (cleanChars s.data) v ∨ Grammar24 (cleanChars s.data) v))) ∧
    parseTime "25:00" = none ∧ parseTime "13:00am" = none := by
  refine ⟨?_, by decide, by decide⟩
  intro s
  cases hp : parseTime s with
  | none =>
    left
    refine ⟨rfl, ?_⟩
    rintro ⟨v, hv⟩
    have hsome := (parseCleaned_iff (cleanChars s.data) v).mpr hv
    exact Option.noConfusion (hp.symm.trans hsome)
  | some v =>
    right
    exact ⟨v, rfl, (parseCleaned_iff (cleanChars s.data) v).mp hp⟩

/-- Claim C7: in the generating case, every produced element parses, the
minute-of-day values advance by exactly the interval (hence are
non-decreasing), the first element denotes the start, and the last element
is within one interval of the end — equal to it when the end is aligned to
the interval grid from the start. -/
theorem generateTimeRange_ordered (s e : String) (iv : Int) (ts te : TimeValue)
    (hs : parseTime s = some ts) (he : parseTime e = some te)
    (hle : timeToMinutes ts ≤ timeToMinutes te) (hiv : 0 < iv) :
    (∀ t ∈ generateTimeRange s e iv, ∃ v, parseTime t = some v) ∧
    (∀ i : Nat, ∀ hi : i + 1 < (generateTimeRange s e iv).length,
      minuteOfDay ((generateTimeRange s e iv).get ⟨i + 1, hi⟩) =
        minuteOfDay ((generateTimeRange s e iv).get ⟨i, by omega⟩) + iv.toNat) ∧
    (∀ i j : Nat, ∀ hi : i < (generateTimeRange s e iv).length,
      ∀ hj : j < (generateTimeRange s e iv).length, i ≤ j →
      minuteOfDay ((generateTimeRange s e iv).get ⟨i, hi⟩) ≤
        minuteOfDay ((generateTimeRange s e iv).get ⟨j, hj⟩)) ∧
    minuteOfDay (generateTimeRange s e iv).headI = timeToMinutes ts ∧
    minuteOfDay (generateTimeRange s e iv).getLastI ≤ timeToMinutes te ∧
    timeToMinutes te - minuteOfDay (generateTimeRange s e iv).getLastI < iv.toNat ∧
    ((timeToMinutes te - timeToMinutes ts) % iv.toNat = 0 →
      minuteOfDay (generateTimeRange s e iv).getLastI = timeToMinutes te) := by
  have hstep0 : 0 < iv.toNat := by omega
  have hteM_lt : timeToMinutes te < 1440 := by
    obtain ⟨hb1, hb2⟩ := parseTime_bounds he
    unfold timeToMinutes
    omega
  have hkey : ∀ i, i ≤ (timeToMinutes te - timeToMinutes ts) / iv.toNat →
      timeToMinutes ts + iv.toNat * i ≤ timeToMinutes te := by
    intro i hi
    have h1 : iv.toNat * i ≤ iv.toNat * ((timeToMinutes te - timeToMinutes ts) / iv.toNat) :=
      Nat.mul_le_mul_left _ hi
    have h2 : iv.toNat * ((timeToMinutes te - timeToMinutes ts) / iv.toNat) ≤
        timeToMinutes te - timeToMinutes ts := by
      rw [Nat.mul_comm]
      exact Nat.div_mul_le_self _ _
    have h3 := Nat.add_le_add_left (le_trans h1 h2) (timeToMinutes ts)
    have h4 : timeToMinutes ts + (timeToMinutes te - timeToMinutes ts) = timeToMinutes te := by
      omega
    exact le_trans h3 (le_of_eq h4)
  have hmval : ∀ i, i ≤ (timeToMinutes te - timeToMinutes ts) / iv.toNat →
      minuteOfDay (formatTime ⟨(timeToMinutes ts + iv.toNat * i) / 60,
        (timeToMinutes ts + iv.toNat * i) % 60⟩) = timeToMinutes ts + iv.toNat * i :=
    fun i hi => minuteOfDay_formatTime (lt_of_le_of_lt (hkey i hi) hteM_lt)
  have hlast : ((List.range ((timeToMinutes te - timeToMinutes ts) / iv.toNat + 1)).map
      (fun i => formatTime ⟨(timeToMinutes ts + iv.toNat * i) / 60,
                            (timeToMinutes ts + iv.toNat * i) % 60⟩)).getLastI =
      formatTime ⟨(timeToMinutes ts +
          iv.toNat * ((timeToMinutes te - timeToMinutes ts) / iv.toNat)) / 60,
        (timeToMinutes ts +
          iv.toNat * ((timeToMinutes te - timeToMinutes ts) / iv.toNat)) % 60⟩ := by
    rw [List.getLastI_eq_getLast?, List.range_succ, List.map_append, List.map_singleton,
      List.getLast?_concat]
  rw [generateTimeRange_closed s e iv ts te hs he hle hiv]
  refine ⟨?_, ?_, ?_, ?_, ?_, ?_, ?_⟩
  · intro t ht
    rw [List.mem_map] at ht
    obtain ⟨i, hi, rfl⟩ := ht
    rw [List.mem_range] at hi
    have hb := hkey i (by omega)
    have hlt : timeToMinutes ts + iv.toNat * i < 1440 := lt_of_le_of_lt hb hteM_lt
    exact ⟨⟨(timeToMinutes ts + iv.toNat * i) / 60, (timeToMinutes ts + iv.toNat * i) % 60⟩,
      roundTrip_aux _ (by omega) _ (by omega)⟩
  · intro i hi
    have hlen : i + 1 < (timeToMinutes te - timeToMinutes ts) / iv.toNat + 1 := by
      simpa using hi
    simp only [List.get_eq_getElem, List.getElem_map, List.getElem_range]
    rw [hmval (i + 1) (by omega), hmval i (by omega)]
    ring
  · intro i j hi hj hij
    have hlenj : j < (timeToMinutes te - timeToMinutes ts) / iv.toNat + 1 := by
      simpa using hj
    simp only [List.get_eq_getElem, List.getElem_map, List.getElem_range]
    rw [hmval i (by omega), hmval j (by omega)]
    exact Nat.add_le_add_left (Nat.mul_le_mul_left _ hij) _
  · rw [List.range_succ_eq_map, List.map_cons, List.headI_cons]
    rw [hmval 0 (Nat.zero_le _)]
    ring
  · rw [hlast, hmval _ (le_refl _)]
    exact hkey _ (le_refl _)
  · rw [hlast, hmval _ (le_refl _)]
    have hdm := Nat.div_add_mod (timeToMinutes te - timeToMinutes ts) iv.toNat
    have hml := Nat.mod_lt (timeToMinutes te - timeToMinutes ts) hstep0
    set A := iv.toNat * ((timeToMinutes te - timeToMinutes ts) / iv.toNat) with hA
    set B := (timeToMinutes te - timeToMinutes ts) % iv.toNat with hB
    omega
  · intro halign
    rw [hlast, hmval _ (le_refl _)]
    have hdm := Nat.div_add_mod (timeToMinutes te - timeToMinutes ts) iv.toNat
    set A := iv.toNat * ((timeToMinutes te - timeToMinutes ts) / iv.toNat) with hA
    set B := (timeToMinutes te - timeToMinutes ts) % iv.toNat with hB
    omega

/-- Witness for C7 at `9:00am`, `10:00am`, interval 30: the endpoints are
interval-aligned, so the last element denotes the end. -/
theorem generateTimeRange_ordered_witness :
    minuteOfDay (generateTimeRange "9:00am" "10:00am" 30).getLastI =
      timeToMinutes (⟨10, 0⟩ : TimeValue) :=
  (generateTimeRange_ordered "9:00am" "10:00am" 30 ⟨9, 0⟩ ⟨10, 0⟩ (by decide) (by decide)
    (by decide) (by decide)).2.2.2.2.2.2 (by decide)

end TimeUtils
